import Mathlib

/-!
# Verification of the optix pattern-matching and text-transformation engine

Shallow embedding of the four processor strategies of the optix repository
(`internal/processor/strategies/`): Search, Replace, Filter and Transform,
together with the data model they share (`internal/types`) and the
filesystem side effects of the Replace/Filter/Transform strategies.

Modelling conventions:

* Go strings are Lean `String`s; byte-level UTF-8 details are not modelled.
  The Go `strings`/`unicode` case functions are modelled on the ASCII range
  (Lean's `Char.toLower`/`Char.toUpper` agree with Go there); characters
  beyond ASCII are left untouched by the case maps and are classified as
  non-separators by the word-boundary test.
* The external Go `regexp` engine is an abstract parameter: a compiled
  pattern is a `Regexp` value (its matching functions plus the one fact of
  the `regexp` API the code relies on: `FindString` returns the empty
  string when `MatchString` is false), and `regexp.Compile` is a function
  `String → Except String Regexp` supplied to each strategy.
* Filesystem effects (`os.WriteFile`, `os.MkdirAll`, `os.ReadFile`,
  `time.Now`) are modelled by an oracle `FS` deciding which calls succeed;
  each strategy returns the ordered trace of the filesystem mutations it
  successfully performed, alongside the Go-style pair
  (`*ProcessingResult`, `error`) modelled as two `Option`s.
* `ProcessingResult.ExecutionTime` (wall-clock duration) is not modelled.
-/

namespace Optix

/-- Semantic model of a compiled Go `*regexp.Regexp`, restricted to the four
operations the strategies invoke. `find_empty` is the documented guarantee of
Go's `FindString`: it returns `""` when there is no match. -/
structure Regexp where
  matchString : String → Bool
  findString : String → String
  replaceAllString : String → String → String
  findAllCount : String → Nat
  find_empty : ∀ s : String, matchString s = false → findString s = ""

/-- `internal/types.ProcessOptions` (field for field; `ContextLines` is a Go
`int`, so it is an `Int` here). -/
structure ProcessOptions where
  Pattern : String := ""
  RegexMode : Bool := false
  CaseSensitive : Bool := false
  WholeWord : Bool := false
  ContextLines : Int := 0
  ReplaceWith : String := ""
  CreateBackup : Bool := false
  BackupDir : String := ""
  InvertMatch : Bool := false
  OnlyMatching : Bool := false
  TransformType : String := ""
  FileName : String := ""
  OutputFile : String := ""
  DryRun : Bool := false

/-- `internal/types.FileContent` (the loaded document). `Size`/`WordCount`
are carried but unused by the strategies; counts are `Nat`s. -/
structure FileContent where
  Content : String := ""
  Lines : List String := []
  FileType : String := "txt"
  Size : Nat := 0
  LineCount : Nat := 0
  WordCount : Nat := 0

/-- `internal/types.ProcessingResult` without `ExecutionTime` (wall-clock
time is outside the embedding). -/
structure ProcessingResult where
  FileName : String := ""
  Operation : String := ""
  MatchesFound : Nat := 0
  LinesProcessed : Nat := 0
  Success : Bool := false
  ErrorMessage : String := ""
  BackupPath : String := ""
  ModifiedContent : String := ""
deriving DecidableEq

/-- `internal/types.SearchResult` (one per matching line in Search). -/
structure SearchResult where
  FileName : String := ""
  LineNumber : Nat := 0
  Line : String := ""
  Match : String := ""
  Context : List String := []
deriving DecidableEq

/-- A successfully performed filesystem mutation (`os.MkdirAll` /
`os.WriteFile`). A failed call performs no mutation and so leaves no trace
entry. -/
inductive FSWrite where
  | mkdir (dir : String)
  | write (path : String) (data : String)
deriving DecidableEq

/-- Oracle for the blocking filesystem calls the strategies issue:
which reads return what, which writes and directory creations succeed,
and the formatted `time.Now()` timestamp used in backup names. -/
structure FS where
  readFile : String → Option String
  mkdirOk : String → Bool
  writeOk : String → Bool
  timestamp : String

/-- The Go-style return pair `(*ProcessingResult, error)`: exactly one side
is expected to be set, but the type does not force it (that discipline is
claim C9). -/
abbrev GoReturn := Option ProcessingResult × Option String

end Optix

namespace Optix

/-- `regexp.QuoteMeta`: escape every regex metacharacter with a backslash
(the character set of Go's `regexp.QuoteMeta`). -/
def goRegexpSpecial (c : Char) : Bool :=
  c = '\\' || c = '.' || c = '+' || c = '*' || c = '?' || c = '(' || c = ')' ||
  c = '|' || c = '[' || c = ']' || c = '\x7b' || c = '\x7d' || c = '^' || c = '$'

/-- `regexp.QuoteMeta` on a whole string. -/
def quoteMeta (s : String) : String :=
  ⟨s.data.flatMap fun c => if goRegexpSpecial c then ['\\', c] else [c]⟩

/-- `SearchProcessorStrategy.ValidateOptions`: empty pattern and negative
context-line counts are validation errors (`some` is a Go non-nil error). -/
def SearchProcessorStrategy.ValidateOptions (options : ProcessOptions) : Option String :=
  if options.Pattern = "" then some "search pattern cannot be empty"
  else if options.ContextLines < 0 then some "context lines cannot be negative"
  else none

/-- `ReplaceProcessorStrategy.ValidateOptions`: empty pattern and empty
replacement text are both validation errors. -/
def ReplaceProcessorStrategy.ValidateOptions (options : ProcessOptions) : Option String :=
  if options.Pattern = "" then some "search pattern cannot be empty"
  else if options.ReplaceWith = "" then some "replacement text cannot be empty"
  else none

/-- `FilterProcessorStrategy.ValidateOptions`: only the pattern is checked. -/
def FilterProcessorStrategy.ValidateOptions (options : ProcessOptions) : Option String :=
  if options.Pattern = "" then some "filter pattern cannot be empty"
  else none

/-- The pattern-compilation prelude shared by Search and Replace
(lines 26–50 of the search strategy, 26–48 of the replace strategy):
regex mode passes the pattern through, literal mode escapes it with
`QuoteMeta` and optionally wraps it in word boundaries; a case-insensitivity
flag is prepended unless `CaseSensitive` is set. `compile` is the external
`regexp.Compile`. -/
def compileSearchStyle (compile : String → Except String Regexp)
    (failMsg : String) (options : ProcessOptions) : Except String Regexp :=
  if options.RegexMode then
    let flags := if !options.CaseSensitive then "(?i)" else ""
    match compile (flags ++ options.Pattern) with
    | .error e => .error ("invalid regex pattern " ++ options.Pattern ++ ": " ++ e)
    | .ok p => .ok p
  else
    let escapedPattern := quoteMeta options.Pattern
    let escapedPattern :=
      if options.WholeWord then "\\b" ++ escapedPattern ++ "\\b" else escapedPattern
    let flags := if !options.CaseSensitive then "(?i)" else ""
    match compile (flags ++ escapedPattern) with
    | .error e => .error (failMsg ++ ": " ++ e)
    | .ok p => .ok p

/-- The Filter strategy's compilation prelude (lines 27–46): identical to
the Search one except that `WholeWord` is never applied. -/
def compileFilterStyle (compile : String → Except String Regexp)
    (options : ProcessOptions) : Except String Regexp :=
  if options.RegexMode then
    let flags := if !options.CaseSensitive then "(?i)" else ""
    match compile (flags ++ options.Pattern) with
    | .error e => .error ("invalid regex pattern " ++ options.Pattern ++ ": " ++ e)
    | .ok p => .ok p
  else
    let escapedPattern := quoteMeta options.Pattern
    let flags := if !options.CaseSensitive then "(?i)" else ""
    match compile (flags ++ escapedPattern) with
    | .error e => .error ("failed to compile filter pattern: " ++ e)
    | .ok p => .ok p

/-- The context slice of the search loop (lines 60–65 of the search
strategy): recorded only when `ContextLines > 0`, as
`lines[max(0, i-c) : min(len(lines), i+c+1)]`. Go's `int` expressions
`max(0, i-c)` and `min(len, i+c+1)` are rendered with `Nat` truncated
subtraction and `min`, which agree with them for `c > 0` and `i ≥ 0`. -/
def searchContext (allLines : List String) (contextLines : Int) (i : Nat) : List String :=
  if 0 < contextLines then
    (allLines.take (min allLines.length (i + contextLines.toNat + 1))).drop
      (i - contextLines.toNat)
  else []

/-- The per-line search loop (lines 55–75 of the search strategy), indexed
from `i`: each matching line is recorded as a `SearchResult` with its
1-based line number, first matching substring, and context window. -/
def searchLoopAux (pattern : Regexp) (fileName : String) (allLines : List String)
    (contextLines : Int) : Nat → List String → List SearchResult
  | _, [] => []
  | i, line :: rest =>
    if pattern.matchString line then
      { FileName := fileName, LineNumber := i + 1, Line := line,
        Match := pattern.findString line,
        Context := searchContext allLines contextLines i } ::
        searchLoopAux pattern fileName allLines contextLines (i + 1) rest
    else searchLoopAux pattern fileName allLines contextLines (i + 1) rest

/-- The search loop over a whole document. -/
def searchLoop (pattern : Regexp) (fileName : String) (lines : List String)
    (contextLines : Int) : List SearchResult :=
  searchLoopAux pattern fileName lines contextLines 0 lines

/-- `SearchProcessorStrategy.Process`: validate, compile, scan the lines and
return a result counting the matching lines. Search performs no filesystem
write. -/
def SearchProcessorStrategy.Process (compile : String → Except String Regexp)
    (content : FileContent) (options : ProcessOptions) : GoReturn :=
  match SearchProcessorStrategy.ValidateOptions options with
  | some e => (none, some ("invalid search options: " ++ e))
  | none =>
    match compileSearchStyle compile "failed to compile search pattern" options with
    | .error e => (none, some e)
    | .ok pattern =>
      let results := searchLoop pattern options.FileName content.Lines options.ContextLines
      (some { FileName := options.FileName, Operation := "search",
              MatchesFound := results.length, LinesProcessed := content.Lines.length,
              Success := true }, none)

/-- The per-line filter loop (lines 48–73 of the filter strategy), returning
the emitted lines and the match counter. A line is selected when it matches
(inverted by `InvertMatch`); with `OnlyMatching` only a non-empty first
matching substring is emitted, and the counter is incremented exactly when a
line (or substring) is emitted. -/
def filterLoop (pattern : Regexp) (invertMatch onlyMatching : Bool) :
    List String → List String × Nat
  | [] => ([], 0)
  | line :: restLines =>
    let restResult := filterLoop pattern invertMatch onlyMatching restLines
    let m := pattern.matchString line
    let m := if invertMatch then !m else m
    if m then
      if onlyMatching then
        let firstMatch := pattern.findString line
        if firstMatch ≠ "" then (firstMatch :: restResult.1, restResult.2 + 1)
        else restResult
      else (line :: restResult.1, restResult.2 + 1)
    else restResult

/-- The filtered content (lines 75–78 of the filter strategy):
`strings.Join(filteredLines, "\n")` plus a trailing newline when at least
one line was emitted. -/
def filteredContentOf (filteredLines : List String) : String :=
  let filteredContent := String.intercalate "\n" filteredLines
  if 0 < filteredLines.length then filteredContent ++ "\n" else filteredContent

/-- `FilterProcessorStrategy.Process`: validate, compile, run the filter
loop, then write the filtered content only when an output file is named and
dry-run is off. -/
def FilterProcessorStrategy.Process (compile : String → Except String Regexp)
    (fs : FS) (content : FileContent) (options : ProcessOptions) :
    List FSWrite × GoReturn :=
  match FilterProcessorStrategy.ValidateOptions options with
  | some e => ([], (none, some ("invalid filter options: " ++ e)))
  | none =>
    match compileFilterStyle compile options with
    | .error e => ([], (none, some e))
    | .ok pattern =>
      let looped := filterLoop pattern options.InvertMatch options.OnlyMatching content.Lines
      let filteredContent := filteredContentOf looped.1
      let result : ProcessingResult :=
        { FileName := options.FileName, Operation := "filter",
          MatchesFound := looped.2, LinesProcessed := content.LineCount,
          Success := true, ModifiedContent := filteredContent }
      if options.OutputFile ≠ "" && !options.DryRun then
        if fs.writeOk options.OutputFile then
          ([FSWrite.write options.OutputFile filteredContent], (some result, none))
        else ([], (none, some "failed to write filtered content"))
      else ([], (some result, none))

/-- `filepath.Base` (Unix semantics): strip trailing slashes and keep the
last path element; `""` gives `"."` and an all-slash path gives `"/"`. -/
def goFilepathBase (path : String) : String :=
  if path = "" then "."
  else
    let rev := path.data.reverse.dropWhile (· = '/')
    let name := rev.takeWhile (· ≠ '/')
    if name = [] then "/" else ⟨name.reverse⟩

/-- `filepath.Join dir name` for the backup path. Path cleaning is omitted:
no claim depends on the spelling of the joined path. -/
def goFilepathJoin (dir name : String) : String := dir ++ "/" ++ name

/-- `ReplaceProcessorStrategy.createBackup` (lines 90–117 of the replace
strategy): read the original bytes, form
`<basename>.backup_<timestamp>` alongside the original or inside
`BackupDir` (created first), and write them there. Returns the Go pair
`(backupPath, error)` plus the trace of performed mutations. -/
def ReplaceProcessorStrategy.createBackup (fs : FS) (fileName backupDir : String) :
    List FSWrite × String × Option String :=
  match fs.readFile fileName with
  | none => ([], ("", some "failed to read original file"))
  | some fileBytes =>
    let timestamp := fs.timestamp
    let baseName := goFilepathBase fileName
    let backupName := baseName ++ ".backup_" ++ timestamp
    if backupDir ≠ "" then
      if fs.mkdirOk backupDir then
        let backupPath := goFilepathJoin backupDir backupName
        if fs.writeOk backupPath then
          ([FSWrite.mkdir backupDir, FSWrite.write backupPath fileBytes], (backupPath, none))
        else ([FSWrite.mkdir backupDir], ("", some "failed to write backup file"))
      else ([], ("", some "failed to create backup directory"))
    else
      let backupPath := fileName ++ ".backup_" ++ timestamp
      if fs.writeOk backupPath then
        ([FSWrite.write backupPath fileBytes], (backupPath, none))
      else ([], ("", some "failed to write backup file"))

/-- The file the Replace and Transform strategies write to: `OutputFile`,
falling back to the source file when it is empty. -/
def outputTarget (options : ProcessOptions) : String :=
  if options.OutputFile = "" then options.FileName else options.OutputFile

/-- `ReplaceProcessorStrategy.Process` (lines 16–88): validate, compile,
take a backup when `CreateBackup` is set and `DryRun` is not, apply the
global substitution to the whole content, count the non-overlapping matches
of the original content, and (outside dry-run) write the modified content
to the output target. -/
def ReplaceProcessorStrategy.Process (compile : String → Except String Regexp)
    (fs : FS) (content : FileContent) (options : ProcessOptions) :
    List FSWrite × GoReturn :=
  match ReplaceProcessorStrategy.ValidateOptions options with
  | some e => ([], (none, some ("invalid replace options: " ++ e)))
  | none =>
    match compileSearchStyle compile "failed to compile replace pattern" options with
    | .error e => ([], (none, some e))
    | .ok pattern =>
      let backupStep :=
        if options.CreateBackup && !options.DryRun then
          ReplaceProcessorStrategy.createBackup fs options.FileName options.BackupDir
        else ([], ("", none))
      match backupStep with
      | (tr, (_, some e)) => (tr, (none, some ("failed to create backup: " ++ e)))
      | (tr, (backupPath, none)) =>
        let originalContent := content.Content
        let modifiedContent := pattern.replaceAllString originalContent options.ReplaceWith
        let matchCount := pattern.findAllCount originalContent
        let result : ProcessingResult :=
          { FileName := options.FileName, Operation := "replace",
            MatchesFound := matchCount, LinesProcessed := content.LineCount,
            Success := true, BackupPath := backupPath,
            ModifiedContent := modifiedContent }
        if !options.DryRun then
          let outputFile := outputTarget options
          if fs.writeOk outputFile then
            (tr ++ [FSWrite.write outputFile modifiedContent], (some result, none))
          else (tr, (none, some "failed to write modified content"))
        else (tr, (some result, none))

/-- `strings.ToLower`, ASCII model (agrees with Go on the basic latin
range; characters beyond it are untouched). -/
def goToLower (s : String) : String := ⟨s.data.map Char.toLower⟩

/-- `strings.ToUpper`, ASCII model. -/
def goToUpper (s : String) : String := ⟨s.data.map Char.toUpper⟩

/-- Go's `strings.isSeparator`, used by `strings.Title` to decide word
starts: in the ASCII range, everything except letters, digits and the
underscore is a separator. Characters beyond ASCII are modelled as
non-separators (Go would treat non-ASCII letters and digits the same way;
only non-ASCII space characters differ, and no claim involves them). -/
def goIsSeparator (r : Char) : Bool :=
  if r.toNat ≤ 0x7F then
    if '0' ≤ r ∧ r ≤ '9' then false
    else if 'a' ≤ r ∧ r ≤ 'z' then false
    else if 'A' ≤ r ∧ r ≤ 'Z' then false
    else if r = '_' then false
    else true
  else false

/-- The stateful map of `strings.Title`: a rune is title-cased exactly when
the previous rune is a separator; the state is the previous original rune
(initially a space). `unicode.ToTitle` agrees with `Char.toUpper` on ASCII. -/
def goTitleAux (prev : Char) : List Char → List Char
  | [] => []
  | c :: rest =>
    (if goIsSeparator prev then c.toUpper else c) :: goTitleAux c rest

/-- `strings.Title`, ASCII model. -/
def goTitle (s : String) : String := ⟨goTitleAux ' ' s.data⟩

/-- `strings.TrimSpace`, ASCII model: strip leading and trailing whitespace
characters from a line. -/
def goTrimSpace (s : String) : String :=
  ⟨((s.data.dropWhile Char.isWhitespace).reverse.dropWhile Char.isWhitespace).reverse⟩

/-- The `trim` arm of the transform switch (lines 31–40): trim each line and
rejoin with newlines, adding a trailing newline when there was at least one
line. -/
def trimTransform (lines : List String) : String :=
  let trimmedLines := lines.map goTrimSpace
  let transformedContent := String.intercalate "\n" trimmedLines
  if 0 < trimmedLines.length then transformedContent ++ "\n" else transformedContent

/-- The `switch strings.ToLower(options.TransformType)` of the transform
strategy (lines 24–43); `none` is the `default` arm (unsupported type). -/
def transformSwitch (content : FileContent) (transformType : String) : Option String :=
  if goToLower transformType = "upper" then some (goToUpper content.Content)
  else if goToLower transformType = "lower" then some (goToLower content.Content)
  else if goToLower transformType = "title" then some (goTitle (goToLower content.Content))
  else if goToLower transformType = "trim" then some (trimTransform content.Lines)
  else none

/-- The valid transform types of `TransformProcessorStrategy.ValidateOptions`. -/
def validTransformTypes : List String := ["upper", "lower", "title", "trim"]

/-- `TransformProcessorStrategy.ValidateOptions` (lines 74–88): empty type
is an error; otherwise the lower-cased type must be one of the four valid
types. -/
def TransformProcessorStrategy.ValidateOptions (options : ProcessOptions) : Option String :=
  if options.TransformType = "" then some "transform type cannot be empty"
  else if validTransformTypes.contains (goToLower options.TransformType) then none
  else some ("invalid transform type " ++ options.TransformType)

/-- `TransformProcessorStrategy.Process` (lines 15–68): validate, apply the
transform switch, and (outside dry-run) write the transformed content to the
output target. `MatchesFound` is fixed at 1. -/
def TransformProcessorStrategy.Process (fs : FS) (content : FileContent)
    (options : ProcessOptions) : List FSWrite × GoReturn :=
  match TransformProcessorStrategy.ValidateOptions options with
  | some e => ([], (none, some ("invalid transform options: " ++ e)))
  | none =>
    match transformSwitch content options.TransformType with
    | none => ([], (none, some ("unsupported transform type: " ++ options.TransformType)))
    | some transformedContent =>
      let result : ProcessingResult :=
        { FileName := options.FileName, Operation := "transform",
          MatchesFound := 1, LinesProcessed := content.LineCount,
          Success := true, ModifiedContent := transformedContent }
      if !options.DryRun then
        let outputFile := outputTarget options
        if fs.writeOk outputFile then
          ([FSWrite.write outputFile transformedContent], (some result, none))
        else ([], (none, some "failed to write transformed content"))
      else ([], (some result, none))

/-- `sub` occurs verbatim inside `s` (contiguous substring). -/
def containsSubstr (s sub : String) : Prop := sub.data <:+: s.data

instance (s sub : String) : Decidable (containsSubstr s sub) :=
  List.decidableInfix sub.data s.data

/-- Leftmost non-overlapping replacement of the literal `pd` by `rd`,
fuel-indexed so that it is structurally recursive (`fuel := s.length`
always suffices: every step consumes at least one character). This is the
semantics Go's regexp engine gives `ReplaceAllString` for a non-empty
escaped literal pattern; it instantiates the abstract `Regexp` in concrete
witnesses. -/
def litReplaceAllGo (pd rd : List Char) : Nat → List Char → List Char
  | _, [] => []
  | 0, s => s
  | fuel + 1, c :: t =>
    if pd ≠ [] ∧ pd.isPrefixOf (c :: t) then
      rd ++ litReplaceAllGo pd rd fuel ((c :: t).drop pd.length)
    else c :: litReplaceAllGo pd rd fuel t

/-- Count of leftmost non-overlapping occurrences of the literal `pd`,
fuel-indexed like `litReplaceAllGo`. -/
def litCountGo (pd : List Char) : Nat → List Char → Nat
  | _, [] => 0
  | 0, _ => 0
  | fuel + 1, c :: t =>
    if pd ≠ [] ∧ pd.isPrefixOf (c :: t) then
      litCountGo pd fuel ((c :: t).drop pd.length) + 1
    else litCountGo pd fuel t

/-- The compiled matcher for a case-sensitively matched non-empty literal
pattern: `MatchString` is substring containment, `FindString` returns the
literal itself on a match, substitution and counting are leftmost
non-overlapping. Used to instantiate the abstract `Regexp` parameter at
concrete inputs. -/
def litRegexp (lit : String) : Regexp where
  matchString s := decide (lit.data <:+: s.data)
  findString s := if lit.data <:+: s.data then lit else ""
  replaceAllString s r := ⟨litReplaceAllGo lit.data r.data s.data.length s.data⟩
  findAllCount s := litCountGo lit.data s.data.length s.data
  find_empty := by
    intro s h
    simp only [decide_eq_false_iff_not] at h
    simp [h]

/-- The document content as the readers build it (`text_reader_strategy.go`
lines 32–41, and likewise the CSV/JSON readers): every line followed by one
newline. -/
def readerContent : List String → String
  | [] => ""
  | l :: rest => l ++ "\n" ++ readerContent rest

/-- From the words of claim C2: the lines the Filter operation selects — a
line is selected when it matches, or, with `InvertMatch`, when it does not
match. -/
def selectedLines (pattern : Regexp) (invertMatch : Bool) (lines : List String) :
    List String :=
  lines.filter fun line =>
    if invertMatch then !pattern.matchString line else pattern.matchString line

/-- The number of selected lines the filter loop actually emits (and hence
counts): all of them without `OnlyMatching`; with `OnlyMatching`, only those
whose extracted first matching substring is non-empty. -/
def emittedCount (pattern : Regexp) (invertMatch onlyMatching : Bool)
    (lines : List String) : Nat :=
  ((selectedLines pattern invertMatch lines).filter fun line =>
    !onlyMatching || pattern.findString line ≠ "").length

/-- Modelled from the words of claim C3: title-casing with word boundaries
that are whitespace-delimited only — a character is uppercased exactly when
the previous character (initially a virtual space) is whitespace. -/
def titleWhitespaceAux (prev : Char) : List Char → List Char
  | [] => []
  | c :: rest =>
    (if prev.isWhitespace then c.toUpper else c) :: titleWhitespaceAux c rest

/-- Modelled from the words of claim C3: lower-case first, then uppercase
the first letter of each whitespace-delimited word. -/
def titleWhitespaceDelimited (s : String) : String :=
  ⟨titleWhitespaceAux ' ' (goToLower s).data⟩

/-- The amended description of Go's title-casing, stated without the
stateful fold: each character is uppercased exactly when its predecessor in
the string (a virtual space for the first character) is a separator — i.e.
not an ASCII letter, digit or underscore. -/
def titleSeparatorSpec (s : String) : String :=
  ⟨List.zipWith (fun p c => if goIsSeparator p then c.toUpper else c)
    (' ' :: s.data) s.data⟩

/-- A filesystem oracle on which every call succeeds; used to instantiate
theorems at concrete inputs. -/
def okFS : FS where
  readFile := fun _ => some "original bytes"
  mkdirOk := fun _ => true
  writeOk := fun _ => true
  timestamp := "20250101_000000"

/-- A compile function for concrete instantiations: every pattern compiles
to the literal matcher for `lit`. -/
def constCompile (lit : String) : String → Except String Regexp :=
  fun _ => Except.ok (litRegexp lit)

end Optix

namespace Optix

/-- Claim C1, counterexample: with a non-empty pattern and an explicitly
empty replacement string, the Replace operation rejects the options with a
validation error instead of accepting them. -/
theorem replace_empty_replacement_is_error :
    ReplaceProcessorStrategy.Process (constCompile "a") okFS
      { Content := "abc", Lines := ["abc"], LineCount := 1 }
      { Pattern := "a", ReplaceWith := "" } =
      ([], (none, some "invalid replace options: replacement text cannot be empty")) := by
  rfl

/-- Claim C1, amended: Replace validation succeeds exactly when both the
pattern and the replacement string are non-empty — an explicitly provided
empty replacement string is itself a validation error, alongside the empty
pattern. -/
theorem replace_validate_ok_iff (options : ProcessOptions) :
    ReplaceProcessorStrategy.ValidateOptions options = none ↔
      options.Pattern ≠ "" ∧ options.ReplaceWith ≠ "" := by
  unfold ReplaceProcessorStrategy.ValidateOptions
  split
  · simp_all
  · split <;> simp_all

/-- The filter loop's counter equals the number of lines it emits. -/
theorem filterLoop_count_eq_length (pattern : Regexp) (inv om : Bool)
    (lines : List String) :
    (filterLoop pattern inv om lines).2 = (filterLoop pattern inv om lines).1.length := by
  induction lines with
  | nil => rfl
  | cons line rest ih =>
    simp only [filterLoop]
    repeat' split
    all_goals simp [ih]

/-- The filter loop's counter equals the number of selected lines that are
actually emitted: all selected lines without `OnlyMatching`, and the
selected lines with a non-empty first matching substring with it. -/
theorem filterLoop_count_eq_emittedCount (pattern : Regexp) (inv om : Bool)
    (lines : List String) :
    (filterLoop pattern inv om lines).2 = emittedCount pattern inv om lines := by
  induction lines with
  | nil => rfl
  | cons line rest ih =>
    simp only [filterLoop, emittedCount, selectedLines, List.filter_cons] at ih ⊢
    repeat' split
    all_goals simp_all [List.filter_cons]

/-- With `InvertMatch` and `OnlyMatching` both set, the filter loop emits
nothing and counts nothing: a line selected by inversion does not match, so
its extracted first matching substring is empty. -/
theorem filterLoop_invert_only (pattern : Regexp) (lines : List String) :
    filterLoop pattern true true lines = ([], 0) := by
  induction lines with
  | nil => rfl
  | cons line rest ih =>
    simp only [filterLoop, ih]
    by_cases hm : pattern.matchString line = true
    · simp [hm]
    · simp only [Bool.not_eq_true] at hm
      simp [hm, pattern.find_empty line hm]

/-- Claim C2, counterexample: Filter with `InvertMatch` and `OnlyMatching`
on the non-matching line emits nothing — but it also counts nothing, so
`matchesFound` (0) differs from the number of selected lines (1). -/
theorem filter_inverted_only_counterexample :
    FilterProcessorStrategy.Process (constCompile "a") okFS
        { Content := "b\n", Lines := ["b"], LineCount := 1 }
        { Pattern := "a", InvertMatch := true, OnlyMatching := true } =
      ([], (some { FileName := "", Operation := "filter", MatchesFound := 0,
                   LinesProcessed := 1, Success := true, ModifiedContent := "" }, none)) ∧
    (selectedLines (litRegexp "a") true ["b"]).length = 1 := by
  constructor
  · rfl
  · rfl

/-- Inversion of a successful Filter run: the returned result's
`MatchesFound` and `ModifiedContent` are the filter loop's counter and
joined content. -/
theorem filterProcess_ok_fields (compile : String → Except String Regexp)
    (fs : FS) (fc : FileContent) (options : ProcessOptions) (pattern : Regexp)
    (hcp : compileFilterStyle compile options = .ok pattern) :
    ∀ tr r, FilterProcessorStrategy.Process compile fs fc options = (tr, (some r, none)) →
      r.MatchesFound = (filterLoop pattern options.InvertMatch options.OnlyMatching fc.Lines).2 ∧
      r.ModifiedContent =
        filteredContentOf (filterLoop pattern options.InvertMatch options.OnlyMatching fc.Lines).1 := by
  intro tr r h
  unfold FilterProcessorStrategy.Process at h
  split at h
  · simp at h
  · split at h
    · simp at h
    · rename_i pat hpat
      rw [hcp] at hpat
      injection hpat with hpat
      subst hpat
      have hr : some r =
          some ({ FileName := options.FileName,
                  Operation := "filter",
                  MatchesFound :=
                    (filterLoop pattern options.InvertMatch options.OnlyMatching fc.Lines).2,
                  LinesProcessed := fc.LineCount,
                  Success := true,
                  ModifiedContent :=
                    filteredContentOf
                      (filterLoop pattern options.InvertMatch options.OnlyMatching fc.Lines).1 } :
            ProcessingResult) := by
        split at h
        · split at h
          · simp only [Prod.mk.injEq] at h
            exact h.2.1.symm
          · simp at h
        · simp only [Prod.mk.injEq] at h
          exact h.2.1.symm
      injection hr with hr
      subst hr
      exact ⟨rfl, rfl⟩

/-- Claim C2, amended: whenever Filter returns a result, `matchesFound`
equals the number of selected lines that are emitted — every selected line
when `OnlyMatching` is unset, and only the selected lines with a non-empty
extracted first match when it is set; in particular the combination
`InvertMatch` with `OnlyMatching` emits nothing into `modifiedContent` and
reports `matchesFound = 0`. -/
theorem filter_matchesFound_eq_emitted (compile : String → Except String Regexp)
    (fs : FS) (fc : FileContent) (options : ProcessOptions) (pattern : Regexp)
    (hcp : compileFilterStyle compile options = .ok pattern) :
    ∀ tr r, FilterProcessorStrategy.Process compile fs fc options = (tr, (some r, none)) →
      r.MatchesFound = emittedCount pattern options.InvertMatch options.OnlyMatching fc.Lines ∧
      (options.InvertMatch = true → options.OnlyMatching = true →
        r.MatchesFound = 0 ∧ r.ModifiedContent = "") := by
  intro tr r h
  obtain ⟨hm, hc⟩ := filterProcess_ok_fields compile fs fc options pattern hcp tr r h
  refine ⟨?_, ?_⟩
  · rw [hm]
    exact filterLoop_count_eq_emittedCount pattern options.InvertMatch options.OnlyMatching fc.Lines
  · intro hinv hom
    rw [hm, hc, hinv, hom, filterLoop_invert_only]
    exact ⟨rfl, rfl⟩

/-- Concrete instantiation of `filter_matchesFound_eq_emitted`: Filter with
pattern `"a"` over the lines `["a", "b"]`. -/
theorem filter_matchesFound_eq_emitted_witness :
    ∃ r : ProcessingResult,
      FilterProcessorStrategy.Process (constCompile "a") okFS
          { Content := "a\nb\n", Lines := ["a", "b"], LineCount := 2 }
          { Pattern := "a" } = ([], (some r, none)) ∧
      r.MatchesFound = emittedCount (litRegexp "a") false false ["a", "b"] := by
  refine ⟨{ FileName := "", Operation := "filter", MatchesFound := 1,
            LinesProcessed := 2, Success := true, ModifiedContent := "a\n" }, rfl, ?_⟩
  exact (filter_matchesFound_eq_emitted (constCompile "a") okFS
    { Content := "a\nb\n", Lines := ["a", "b"], LineCount := 2 }
    { Pattern := "a" } (litRegexp "a") rfl [] _ rfl).1

/-- Without `OnlyMatching`, the filter loop's counters for the two
inversion settings sum to the number of lines: every line is selected by
exactly one of them and counted whenever it is selected. -/
theorem filterLoop_count_add_inverted (pattern : Regexp) (lines : List String) :
    (filterLoop pattern false false lines).2 + (filterLoop pattern true false lines).2 =
      lines.length := by
  induction lines with
  | nil => rfl
  | cons line rest ih =>
    by_cases hm : pattern.matchString line = true
    · simp [filterLoop, hm]
      omega
    · simp only [Bool.not_eq_true] at hm
      simp [filterLoop, hm]
      omega

/-- Claim C7: for Filter without `OnlyMatching`, the `matchesFound` of a
run with `InvertMatch` unset plus the `matchesFound` of a run with
`InvertMatch` set (same pattern and flags) equals the document's total line
count. -/
theorem filter_invert_counts_sum (compile : String → Except String Regexp)
    (fs : FS) (fc : FileContent) (options : ProcessOptions) (pattern : Regexp)
    (hom : options.OnlyMatching = false)
    (hcp : compileFilterStyle compile options = .ok pattern) :
    ∀ tr1 tr2 r1 r2,
      FilterProcessorStrategy.Process compile fs fc
          { options with InvertMatch := false } = (tr1, (some r1, none)) →
      FilterProcessorStrategy.Process compile fs fc
          { options with InvertMatch := true } = (tr2, (some r2, none)) →
      r1.MatchesFound + r2.MatchesFound = fc.Lines.length := by
  intro tr1 tr2 r1 r2 h1 h2
  have e1 := (filterProcess_ok_fields compile fs fc { options with InvertMatch := false }
    pattern hcp tr1 r1 h1).1
  have e2 := (filterProcess_ok_fields compile fs fc { options with InvertMatch := true }
    pattern hcp tr2 r2 h2).1
  simp only at e1 e2
  rw [hom] at e1 e2
  rw [e1, e2]
  exact filterLoop_count_add_inverted pattern fc.Lines

/-- Concrete instantiation of `filter_invert_counts_sum`: pattern `"ERROR"`
over five lines of which two match — the two counts are 2 and 3 and sum to
5. -/
theorem filter_invert_counts_sum_witness :
    ∃ r1 r2 : ProcessingResult,
      FilterProcessorStrategy.Process (constCompile "ERROR") okFS
          { Content := "ERROR one\nok\nERROR two\nok\nok\n",
            Lines := ["ERROR one", "ok", "ERROR two", "ok", "ok"], LineCount := 5 }
          { Pattern := "ERROR", InvertMatch := false } = ([], (some r1, none)) ∧
      FilterProcessorStrategy.Process (constCompile "ERROR") okFS
          { Content := "ERROR one\nok\nERROR two\nok\nok\n",
            Lines := ["ERROR one", "ok", "ERROR two", "ok", "ok"], LineCount := 5 }
          { Pattern := "ERROR", InvertMatch := true } = ([], (some r2, none)) ∧
      r1.MatchesFound + r2.MatchesFound = 5 := by
  refine ⟨{ FileName := "", Operation := "filter", MatchesFound := 2,
            LinesProcessed := 5, Success := true,
            ModifiedContent := "ERROR one\nERROR two\n" },
          { FileName := "", Operation := "filter", MatchesFound := 3,
            LinesProcessed := 5, Success := true,
            ModifiedContent := "ok\nok\nok\n" }, ?_, ?_, ?_⟩
  · rfl
  · rfl
  · exact filter_invert_counts_sum (constCompile "ERROR") okFS
      { Content := "ERROR one\nok\nERROR two\nok\nok\n",
        Lines := ["ERROR one", "ok", "ERROR two", "ok", "ok"], LineCount := 5 }
      { Pattern := "ERROR" } (litRegexp "ERROR") rfl rfl [] [] _ _ rfl rfl

/-- `Char.ofNat` of a valid codepoint round-trips through `toNat`. -/
theorem char_toNat_ofNat_valid {n : Nat} (h : n.isValidChar) : (Char.ofNat n).toNat = n := by
  unfold Char.ofNat
  rw [dif_pos h]
  rfl

/-- ASCII lower-casing is idempotent on characters. -/
theorem char_toLower_idem (c : Char) : c.toLower.toLower = c.toLower := by
  unfold Char.toLower
  by_cases h : c.toNat ≥ 65 ∧ c.toNat ≤ 90
  · rw [if_pos h]
    have hv : (c.toNat + 32).isValidChar := Or.inl (by omega)
    rw [char_toNat_ofNat_valid hv]
    rw [if_neg (by omega)]
  · rw [if_neg h, if_neg h]

/-- `strings.ToLower` is idempotent. -/
theorem goToLower_idem (s : String) : goToLower (goToLower s) = goToLower s := by
  unfold goToLower
  apply congrArg String.mk
  show (s.data.map Char.toLower).map Char.toLower = s.data.map Char.toLower
  induction s.data with
  | nil => rfl
  | cons c t ih => simp [ih, char_toLower_idem]

/-- The transform switch only looks at the lower-cased type. -/
theorem transformSwitch_toLower (fc : FileContent) (t : String) :
    transformSwitch fc (goToLower t) = transformSwitch fc t := by
  unfold transformSwitch
  rw [goToLower_idem]

/-- On a type whose lower-casing is one of the four valid ones, the
transform switch takes one of the four content arms, never the default. -/
theorem transformSwitch_isSome_of_valid (fc : FileContent) {t : String}
    (h : goToLower t ∈ validTransformTypes) : (transformSwitch fc t).isSome = true := by
  simp only [validTransformTypes, List.mem_cons, List.not_mem_nil, or_false] at h
  unfold transformSwitch
  rcases h with h | h | h | h <;> simp [h]

/-- Lower-casing preserves emptiness. -/
theorem goToLower_eq_empty_iff (t : String) : goToLower t = "" ↔ t = "" := by
  unfold goToLower
  constructor
  · intro h
    have hd : t.data.map Char.toLower = ([] : List Char) := congrArg String.data h
    cases t with
    | mk d =>
      cases d with
      | nil => rfl
      | cons c l => simp at hd
  · intro h
    subst h
    rfl

/-- Transform validation succeeds exactly when the lower-cased transform
type is one of the four valid types. -/
theorem transform_validate_ok_iff (options : ProcessOptions) :
    TransformProcessorStrategy.ValidateOptions options = none ↔
      goToLower options.TransformType ∈ validTransformTypes := by
  unfold TransformProcessorStrategy.ValidateOptions
  split
  · rename_i h
    rw [h]
    simp only [reduceCtorEq, false_iff]
    decide
  · split
    · rename_i h hc
      simp only [true_iff]
      exact List.elem_iff.mp hc
    · rename_i h hc
      simp only [reduceCtorEq, false_iff]
      intro hmem
      exact hc (List.elem_iff.mpr hmem)

/-- Claim C10: the Transform operation treats `transformKind`
case-insensitively — validation accepts exactly the strings whose
lower-casing is one of `upper`, `lower`, `title`, `trim`, and for any such
string the whole operation behaves identically to its lower-cased form. -/
theorem transform_type_case_insensitive (fs : FS) (fc : FileContent)
    (options : ProcessOptions) :
    (TransformProcessorStrategy.ValidateOptions options = none ↔
      goToLower options.TransformType ∈ validTransformTypes) ∧
    (goToLower options.TransformType ∈ validTransformTypes →
      TransformProcessorStrategy.Process fs fc options =
        TransformProcessorStrategy.Process fs fc
          { options with TransformType := goToLower options.TransformType }) := by
  refine ⟨transform_validate_ok_iff options, ?_⟩
  intro hvalid
  have hv1 : TransformProcessorStrategy.ValidateOptions options = none :=
    (transform_validate_ok_iff options).2 hvalid
  have hvalid2 : goToLower
      ({ options with TransformType := goToLower options.TransformType } :
        ProcessOptions).TransformType ∈ validTransformTypes := by
    simpa [goToLower_idem] using hvalid
  have hv2 := (transform_validate_ok_iff _).2 hvalid2
  obtain ⟨tc, htc⟩ := Option.isSome_iff_exists.mp (transformSwitch_isSome_of_valid fc hvalid)
  have htc2 : transformSwitch fc (goToLower options.TransformType) = some tc := by
    rw [transformSwitch_toLower]
    exact htc
  unfold TransformProcessorStrategy.Process
  simp only [hv1, hv2, htc, htc2, outputTarget]

/-- Concrete instantiation of `transform_type_case_insensitive`: the casing
variant `"UPPER"` passes validation and behaves as `"upper"`. -/
theorem transform_type_case_insensitive_witness :
    TransformProcessorStrategy.ValidateOptions { TransformType := "UPPER" } = none ∧
    TransformProcessorStrategy.Process okFS { Content := "hi", Lines := ["hi"], LineCount := 1 }
        { TransformType := "UPPER", DryRun := true } =
      TransformProcessorStrategy.Process okFS { Content := "hi", Lines := ["hi"], LineCount := 1 }
        { TransformType := "upper", DryRun := true } := by
  constructor
  · exact (transform_type_case_insensitive okFS
      { Content := "hi", Lines := ["hi"], LineCount := 1 }
      { TransformType := "UPPER" }).1.mpr (by decide)
  · exact (transform_type_case_insensitive okFS
      { Content := "hi", Lines := ["hi"], LineCount := 1 }
      { TransformType := "UPPER", DryRun := true }).2 (by decide)

/-- The stateful fold of `strings.Title` coincides with the zip-with-
predecessor formulation. -/
theorem goTitleAux_eq_zipWith (prev : Char) (cs : List Char) :
    goTitleAux prev cs =
      List.zipWith (fun p c => if goIsSeparator p then c.toUpper else c) (prev :: cs) cs := by
  induction cs generalizing prev with
  | nil => rfl
  | cons c rest ih => simp [goTitleAux, List.zipWith, ih]

/-- `strings.Title` uppercases exactly the characters whose predecessor is
a separator (not an ASCII letter, digit or underscore). -/
theorem goTitle_eq_titleSeparatorSpec (s : String) : goTitle s = titleSeparatorSpec s :=
  congrArg String.mk (goTitleAux_eq_zipWith ' ' s.data)

/-- Claim C3, counterexample: on the content `don't`, the `title` transform
produces `Don'T` — the letter after the apostrophe is uppercased — while
the claimed whitespace-delimited title-casing produces `Don't`. -/
theorem transform_title_counterexample :
    TransformProcessorStrategy.Process okFS
        { Content := "don\x27t", Lines := ["don\x27t"], LineCount := 1 }
        { TransformType := "title", DryRun := true } =
      ([], (some { FileName := "", Operation := "transform", MatchesFound := 1,
                   LinesProcessed := 1, Success := true,
                   ModifiedContent := "Don\x27T" }, none)) ∧
    titleWhitespaceDelimited "don\x27t" = "Don\x27t" ∧
    ("Don\x27T" : String) ≠ "Don\x27t" := by
  refine ⟨rfl, rfl, ?_⟩
  decide

/-- Claim C3, amended: the `title` transform equals lower-casing the whole
content and then uppercasing every character whose predecessor (a virtual
space for the first) is a separator in Go's sense — any character that is
not an ASCII letter, digit or underscore. In particular a letter preceded
by an apostrophe IS uppercased, while a letter preceded by a digit or
underscore is not. -/
theorem transform_title_content (fs : FS) (fc : FileContent) (options : ProcessOptions)
    (ht : options.TransformType = "title") :
    ∀ tr r, TransformProcessorStrategy.Process fs fc options = (tr, (some r, none)) →
      r.ModifiedContent = titleSeparatorSpec (goToLower fc.Content) := by
  intro tr r h
  unfold TransformProcessorStrategy.Process at h
  split at h
  · simp at h
  · split at h
    · simp at h
    · rename_i tc htc
      rw [ht] at htc
      have hval : transformSwitch fc "title" = some (goTitle (goToLower fc.Content)) := rfl
      rw [hval] at htc
      injection htc with htc
      dsimp only at h
      have hr : some r =
          some ({ FileName := options.FileName,
                  Operation := "transform",
                  MatchesFound := 1,
                  LinesProcessed := fc.LineCount,
                  Success := true,
                  ModifiedContent := tc } : ProcessingResult) := by
        split at h
        · split at h
          · simp only [Prod.mk.injEq] at h
            exact h.2.1.symm
          · simp at h
        · simp only [Prod.mk.injEq] at h
          exact h.2.1.symm
      injection hr with hr
      subst hr
      rw [← htc, goTitle_eq_titleSeparatorSpec]

/-- Concrete instantiation of `transform_title_content` on a two-word
content. -/
theorem transform_title_content_witness :
    ∃ r, TransformProcessorStrategy.Process okFS
        { Content := "hello WORLD", Lines := ["hello WORLD"], LineCount := 1 }
        { TransformType := "title", DryRun := true } = ([], (some r, none)) ∧
      r.ModifiedContent = titleSeparatorSpec (goToLower "hello WORLD") := by
  refine ⟨{ FileName := "", Operation := "transform", MatchesFound := 1,
            LinesProcessed := 1, Success := true,
            ModifiedContent := "Hello World" }, rfl, ?_⟩
  exact transform_title_content okFS
    { Content := "hello WORLD", Lines := ["hello WORLD"], LineCount := 1 }
    { TransformType := "title", DryRun := true } rfl [] _ rfl

/-- From the words of claim C4: the slice of lines
`[max(0, i-c), min(n, i+c+1))` around matching line index `i`. -/
def contextWindow (lines : List String) (c : Int) (i : Nat) : List String :=
  (lines.take (min (lines.length : Int) ((i : Int) + c + 1)).toNat).drop
    (max 0 ((i : Int) - c)).toNat

/-- For a positive context count the code's context slice is exactly the
claimed window. -/
theorem searchContext_eq_window (lines : List String) (c : Int) (i : Nat) (hc : 0 < c) :
    searchContext lines c i = contextWindow lines c i := by
  have h1 : (min (lines.length : Int) ((i : Int) + c + 1)).toNat =
      min lines.length (i + c.toNat + 1) := by omega
  have h2 : (max 0 ((i : Int) - c)).toNat = i - c.toNat := by omega
  unfold searchContext contextWindow
  rw [if_pos hc, h1, h2]

/-- The matching line itself lies inside its recorded context slice. -/
theorem getD_mem_searchContext (lines : List String) (c : Int) (j : Nat)
    (hc : 0 < c) (hj : j < lines.length) :
    lines.getD j "" ∈ searchContext lines c j := by
  unfold searchContext
  rw [if_pos hc]
  rw [List.mem_iff_getElem?]
  refine ⟨j - (j - c.toNat), ?_⟩
  rw [List.getElem?_drop]
  have hidx : j - c.toNat + (j - (j - c.toNat)) = j := by omega
  rw [hidx]
  rw [List.getElem?_take_of_lt (by omega : j < min lines.length (j + c.toNat + 1))]
  rw [List.getElem?_eq_getElem hj, List.getD_eq_getElem?_getD,
    List.getElem?_eq_getElem hj]
  rfl

/-- Every result the search loop records for the suffix of the lines
starting at index `i` belongs to some absolute line index `j`: its line
number is `j + 1`, its line is the `j`-th line, and its context is the
code's context slice at `j`. -/
theorem searchLoopAux_mem (pattern : Regexp) (fn : String) (allLines : List String)
    (c : Int) :
    ∀ (i : Nat) (rest : List String), rest = allLines.drop i →
      ∀ r ∈ searchLoopAux pattern fn allLines c i rest,
        ∃ j, j < allLines.length ∧ r.LineNumber = j + 1 ∧
          r.Line = allLines.getD j "" ∧ r.Context = searchContext allLines c j := by
  intro i rest
  induction rest generalizing i with
  | nil =>
    intro _ r hr
    simp [searchLoopAux] at hr
  | cons line rest2 ih =>
    intro hrest r hr
    have hi : i < allLines.length := by
      by_contra hle
      push_neg at hle
      have hnil : allLines.drop i = [] := List.drop_eq_nil_iff.mpr hle
      rw [hnil] at hrest
      exact List.cons_ne_nil line rest2 hrest
    have hline : allLines.getD i "" = line := by
      have h0 : (allLines.drop i)[0]? = some line := by rw [← hrest]; simp
      rw [List.getElem?_drop, Nat.add_zero] at h0
      rw [List.getD_eq_getElem?_getD, h0]
      rfl
    have hrest2 : rest2 = allLines.drop (i + 1) := by
      rw [← List.tail_drop, ← hrest]
      rfl
    simp only [searchLoopAux] at hr
    split at hr
    · rcases List.mem_cons.mp hr with hr | hr
      · exact ⟨i, hi, by rw [hr], by rw [hr]; exact hline.symm, by rw [hr]⟩
      · exact ih (i + 1) hrest2 r hr
    · exact ih (i + 1) hrest2 r hr

/-- Claim C4, amended: for every matching line, when `contextLines = c > 0`
the recorded context is exactly the slice `[max(0, i-c), min(n, i+c+1))`
of the lines, which includes the matching line itself; when `c = 0` the
recorded context is empty (not the one-element slice holding the match
line). -/
theorem search_context_slice (pattern : Regexp) (fn : String) (lines : List String)
    (c : Int) :
    ∀ r ∈ searchLoop pattern fn lines c,
      (0 < c → r.Context = contextWindow lines c (r.LineNumber - 1) ∧ r.Line ∈ r.Context) ∧
      (c = 0 → r.Context = []) := by
  intro r hr
  obtain ⟨j, hj, hln, hline, hctx⟩ :=
    searchLoopAux_mem pattern fn lines c 0 lines rfl r hr
  have hj2 : r.LineNumber - 1 = j := by omega
  constructor
  · intro hc
    constructor
    · rw [hctx, hj2]
      exact searchContext_eq_window lines c j hc
    · rw [hctx, hline]
      exact getD_mem_searchContext lines c j hc hj
  · intro hc
    rw [hctx]
    unfold searchContext
    rw [if_neg (by omega)]

/-- Claim C4, counterexample: with `contextLines = 0` the recorded context
of a matching line is empty, while the claimed slice
`[max(0, i-0), min(n, i+0+1))` is the one-element slice holding the match
line. -/
theorem search_context_zero_counterexample :
    searchLoop (litRegexp "a") "f" ["a"] 0 =
      [{ FileName := "f", LineNumber := 1, Line := "a", Match := "a", Context := [] }] ∧
    contextWindow ["a"] 0 0 = ["a"] ∧
    ([] : List String) ≠ ["a"] := by
  refine ⟨rfl, rfl, ?_⟩
  decide

/-- Concrete instantiation of `search_context_slice`: pattern `"a"` over
three lines with one context line around the middle match. -/
theorem search_context_slice_witness :
    ∃ r, r ∈ searchLoop (litRegexp "a") "f" ["x", "a", "y"] 1 ∧
      r.Context = contextWindow ["x", "a", "y"] 1 (r.LineNumber - 1) ∧
      r.Line ∈ r.Context := by
  refine ⟨{ FileName := "f", LineNumber := 2, Line := "a", Match := "a",
            Context := ["x", "a", "y"] }, ?_, ?_, ?_⟩
  · decide
  · exact ((search_context_slice (litRegexp "a") "f" ["x", "a", "y"] 1 _ (by decide)).1
      (by decide)).1
  · exact ((search_context_slice (litRegexp "a") "f" ["x", "a", "y"] 1 _ (by decide)).1
      (by decide)).2

/-- A newline-free prefix of `xs ++ '\n' :: ys` is a prefix of `xs`. -/
theorem prefix_of_append_newline {p xs ys : List Char} (hn : '\n' ∉ p)
    (h : p <+: xs ++ '\n' :: ys) : p <+: xs := by
  induction xs generalizing p with
  | nil =>
    cases p with
    | nil => exact List.nil_prefix
    | cons a p2 =>
      rw [List.nil_append] at h
      rcases List.cons_prefix_cons.mp h with ⟨ha, -⟩
      exact absurd (ha ▸ List.mem_cons_self a p2) hn
  | cons b xs2 ih =>
    cases p with
    | nil => exact List.nil_prefix
    | cons a p2 =>
      rw [List.cons_append] at h
      rcases List.cons_prefix_cons.mp h with ⟨hab, hp⟩
      subst hab
      exact List.cons_prefix_cons.mpr
        ⟨rfl, ih (fun hm => hn (List.mem_cons_of_mem _ hm)) hp⟩

/-- A newline-free infix of `xs ++ '\n' :: ys` lies wholly in `xs` or
wholly in `ys`. -/
theorem infix_append_newline {p xs ys : List Char} (hn : '\n' ∉ p)
    (h : p <:+: xs ++ '\n' :: ys) : p <:+: xs ∨ p <:+: ys := by
  induction xs with
  | nil =>
    rw [List.nil_append] at h
    rcases List.infix_cons_iff.mp h with h | h
    · cases p with
      | nil => exact Or.inl List.nil_infix
      | cons a p2 =>
        rcases List.cons_prefix_cons.mp h with ⟨ha, -⟩
        exact absurd (ha ▸ List.mem_cons_self a p2) hn
    · exact Or.inr h
  | cons b xs2 ih =>
    rw [List.cons_append] at h
    rcases List.infix_cons_iff.mp h with h | h
    · rw [← List.cons_append] at h
      exact Or.inl (prefix_of_append_newline hn h).isInfix
    · rcases ih h with h2 | h2
      · exact Or.inl (List.infix_cons h2)
      · exact Or.inr h2

/-- A non-empty newline-free pattern occurring in the reader-built content
occurs in one of the lines. -/
theorem contains_some_line {p : String} {lines : List String}
    (hne : p ≠ "") (hnl : '\n' ∉ p.data)
    (h : containsSubstr (readerContent lines) p) :
    ∃ l ∈ lines, containsSubstr l p := by
  induction lines with
  | nil =>
    exfalso
    have hd : p.data = [] := List.eq_nil_of_infix_nil h
    apply hne
    cases p with
    | mk d => simp_all
  | cons l rest ih =>
    unfold containsSubstr readerContent at h
    have hdata : (l ++ "\n" ++ readerContent rest).data =
        l.data ++ '\n' :: (readerContent rest).data := by
      show (l.data ++ ['\n']) ++ (readerContent rest).data = _
      rw [List.append_assoc]
      rfl
    rw [hdata] at h
    rcases infix_append_newline hnl h with h | h
    · exact ⟨l, List.mem_cons_self l rest, h⟩
    · obtain ⟨l2, hl2, hc⟩ := ih h
      exact ⟨l2, List.mem_cons_of_mem l hl2, hc⟩

/-- If some line of the scanned suffix matches, the search loop records at
least one result. -/
theorem searchLoopAux_length_pos (pattern : Regexp) (fn : String)
    (allLines : List String) (c : Int) :
    ∀ (i : Nat) (rest : List String), (∃ l ∈ rest, pattern.matchString l = true) →
      0 < (searchLoopAux pattern fn allLines c i rest).length := by
  intro i rest
  induction rest generalizing i with
  | nil =>
    rintro ⟨l, hl, -⟩
    cases hl
  | cons line rest2 ih =>
    rintro ⟨l, hl, hm⟩
    simp only [searchLoopAux]
    rcases List.mem_cons.mp hl with rfl | hl
    · rw [if_pos hm]
      simp
    · split
      · simp
      · exact ih (i + 1) ⟨l, hl, hm⟩

/-- Claim C5, amended: for every non-empty literal pattern that contains no
newline, Search in literal mode (whole-word off, metacharacters escaped so
the compiled matcher accepts every string containing the pattern) on a
document whose content contains the pattern verbatim reports
`matchesFound ≥ 1`. A pattern containing a newline can occur in the content
yet in no single line, so the newline-freedom hypothesis is necessary. -/
theorem search_literal_contains (compile : String → Except String Regexp)
    (fc : FileContent) (options : ProcessOptions) (re : Regexp)
    (hmode : options.RegexMode = false)
    (hww : options.WholeWord = false)
    (hp : options.Pattern ≠ "")
    (hcl : 0 ≤ options.ContextLines)
    (hnl : '\n' ∉ options.Pattern.data)
    (hcompile : compile ((if !options.CaseSensitive then "(?i)" else "") ++
        quoteMeta options.Pattern) = .ok re)
    (hre : ∀ s : String, containsSubstr s options.Pattern → re.matchString s = true)
    (hlines : fc.Content = readerContent fc.Lines)
    (hcontains : containsSubstr fc.Content options.Pattern) :
    ∃ r, SearchProcessorStrategy.Process compile fc options = (some r, none) ∧
      1 ≤ r.MatchesFound := by
  have hval : SearchProcessorStrategy.ValidateOptions options = none := by
    unfold SearchProcessorStrategy.ValidateOptions
    rw [if_neg hp, if_neg (by omega)]
  have hcp : compileSearchStyle compile "failed to compile search pattern" options =
      .ok re := by
    unfold compileSearchStyle
    simp only [hmode, hww, Bool.false_eq_true, if_false, hcompile]
  unfold SearchProcessorStrategy.Process
  simp only [hval, hcp]
  refine ⟨_, rfl, ?_⟩
  rw [hlines] at hcontains
  obtain ⟨l, hl, hc⟩ := contains_some_line hp hnl hcontains
  exact searchLoopAux_length_pos re options.FileName fc.Lines options.ContextLines 0
    fc.Lines ⟨l, hl, hre l hc⟩

/-- Claim C5, counterexample: the pattern `"a\nb"` occurs verbatim in the
content `"a\nb\n"` of a two-line document, yet the line-by-line literal
search matches no line, so `matchesFound = 0`. -/
theorem search_literal_newline_counterexample :
    containsSubstr "a\nb\n" "a\nb" ∧
    ("a\nb\n" : String) = readerContent ["a", "b"] ∧
    SearchProcessorStrategy.Process (fun _ => Except.ok (litRegexp "a\nb"))
        { Content := "a\nb\n", Lines := ["a", "b"], LineCount := 2 }
        { Pattern := "a\nb", CaseSensitive := true } =
      (some { FileName := "", Operation := "search", MatchesFound := 0,
              LinesProcessed := 2, Success := true }, none) := by
  refine ⟨by decide, rfl, rfl⟩

/-- Concrete instantiation of `search_literal_contains`: pattern `"lo"`
inside `"hello\nworld\n"`. -/
theorem search_literal_contains_witness :
    ∃ r, SearchProcessorStrategy.Process (fun _ => Except.ok (litRegexp "lo"))
        { Content := "hello\nworld\n", Lines := ["hello", "world"], LineCount := 2 }
        { Pattern := "lo", CaseSensitive := true } = (some r, none) ∧
      1 ≤ r.MatchesFound := by
  exact search_literal_contains (fun _ => Except.ok (litRegexp "lo"))
    { Content := "hello\nworld\n", Lines := ["hello", "world"], LineCount := 2 }
    { Pattern := "lo", CaseSensitive := true } (litRegexp "lo")
    rfl rfl (by decide) (by decide) (by decide) rfl
    (fun s h => decide_eq_true h) rfl (by decide)

/-- Replace validation ignores the dry-run flag. -/
theorem replace_validate_dryRun (options : ProcessOptions) (b : Bool) :
    ReplaceProcessorStrategy.ValidateOptions { options with DryRun := b } =
      ReplaceProcessorStrategy.ValidateOptions options := rfl

/-- Pattern compilation ignores the dry-run flag. -/
theorem replace_compile_dryRun (compile : String → Except String Regexp)
    (msg : String) (options : ProcessOptions) (b : Bool) :
    compileSearchStyle compile msg { options with DryRun := b } =
      compileSearchStyle compile msg options := rfl

/-- Inversion of a successful Replace run: the result carries the global
substitution over the whole content and the count of non-overlapping
matches of the original content. -/
theorem replaceProcess_ok_fields (compile : String → Except String Regexp)
    (fs : FS) (fc : FileContent) (options : ProcessOptions) (re : Regexp)
    (hcp : compileSearchStyle compile "failed to compile replace pattern" options = .ok re) :
    ∀ tr r, ReplaceProcessorStrategy.Process compile fs fc options = (tr, (some r, none)) →
      r.ModifiedContent = re.replaceAllString fc.Content options.ReplaceWith ∧
      r.MatchesFound = re.findAllCount fc.Content ∧ r.Success = true := by
  intro tr r h
  unfold ReplaceProcessorStrategy.Process at h
  split at h
  · simp at h
  · split at h
    · simp at h
    · rename_i pat hpat
      rw [hcp] at hpat
      injection hpat with hpat
      subst hpat
      have extract : ∀ bp : String,
          some r = some ({ FileName := options.FileName,
                           Operation := "replace",
                           MatchesFound := re.findAllCount fc.Content,
                           LinesProcessed := fc.LineCount,
                           Success := true,
                           BackupPath := bp,
                           ModifiedContent :=
                             re.replaceAllString fc.Content options.ReplaceWith } :
            ProcessingResult) →
          r.ModifiedContent = re.replaceAllString fc.Content options.ReplaceWith ∧
          r.MatchesFound = re.findAllCount fc.Content ∧ r.Success = true := by
        intro bp hr
        injection hr with hr
        subst hr
        exact ⟨rfl, rfl, rfl⟩
      rcases hstep : ReplaceProcessorStrategy.createBackup fs options.FileName options.BackupDir
        with ⟨tr2, bp, berr⟩
      cases berr with
      | some e =>
        simp only [hstep] at h
        repeat' split at h
        all_goals
          first
            | (simp only [Prod.mk.injEq] at h
               exact extract _ h.2.1.symm)
            | simp_all
      | none =>
        simp only [hstep] at h
        repeat' split at h
        all_goals
          first
            | (simp only [Prod.mk.injEq] at h
               exact extract _ h.2.1.symm)
            | simp_all

/-- A dry Replace run performs no filesystem mutation, skips the backup,
and returns the computed substitution and match count. -/
theorem replaceProcess_dryRun (compile : String → Except String Regexp)
    (fs : FS) (fc : FileContent) (options : ProcessOptions) (re : Regexp)
    (hval : ReplaceProcessorStrategy.ValidateOptions options = none)
    (hcp : compileSearchStyle compile "failed to compile replace pattern" options = .ok re)
    (hdr : options.DryRun = true) :
    ReplaceProcessorStrategy.Process compile fs fc options =
      ([], (some { FileName := options.FileName, Operation := "replace",
                   MatchesFound := re.findAllCount fc.Content,
                   LinesProcessed := fc.LineCount, Success := true, BackupPath := "",
                   ModifiedContent := re.replaceAllString fc.Content options.ReplaceWith },
            none)) := by
  unfold ReplaceProcessorStrategy.Process
  simp only [hval, hcp, hdr, Bool.not_true, Bool.and_false, Bool.false_eq_true, if_false]

/-- Claim C6: with validation and compilation succeeding, the dry run
writes nothing (empty trace, no backup) yet returns the computed
`modifiedContent` and `matchesFound`, and any successful live run (same
options, dry-run off) returns exactly the same two values. -/
theorem replace_dryRun_equiv (compile : String → Except String Regexp)
    (fs : FS) (fc : FileContent) (options : ProcessOptions) (re : Regexp)
    (hval : ReplaceProcessorStrategy.ValidateOptions options = none)
    (hcp : compileSearchStyle compile "failed to compile replace pattern" options = .ok re) :
    ReplaceProcessorStrategy.Process compile fs fc { options with DryRun := true } =
      ([], (some { FileName := options.FileName, Operation := "replace",
                   MatchesFound := re.findAllCount fc.Content,
                   LinesProcessed := fc.LineCount, Success := true, BackupPath := "",
                   ModifiedContent := re.replaceAllString fc.Content options.ReplaceWith },
            none)) ∧
    (∀ tr r, ReplaceProcessorStrategy.Process compile fs fc { options with DryRun := false } =
        (tr, (some r, none)) →
      r.ModifiedContent = re.replaceAllString fc.Content options.ReplaceWith ∧
      r.MatchesFound = re.findAllCount fc.Content) := by
  constructor
  · exact replaceProcess_dryRun compile fs fc { options with DryRun := true } re
      ((replace_validate_dryRun options true).trans hval)
      ((replace_compile_dryRun compile _ options true).trans hcp) rfl
  · intro tr r h
    have := replaceProcess_ok_fields compile fs fc { options with DryRun := false } re
      ((replace_compile_dryRun compile _ options false).trans hcp) tr r h
    exact ⟨this.1, this.2.1⟩

/-- Concrete instantiation of `replace_dryRun_equiv`: replacing `"a"` by
`"b"` in `"abc"`, dry and live, yields the same content and count. -/
theorem replace_dryRun_equiv_witness :
    ReplaceProcessorStrategy.Process (constCompile "a") okFS
        { Content := "abc", Lines := ["abc"], LineCount := 1 }
        { Pattern := "a", ReplaceWith := "b", DryRun := true } =
      ([], (some { FileName := "", Operation := "replace", MatchesFound := 1,
                   LinesProcessed := 1, Success := true, BackupPath := "",
                   ModifiedContent := "bbc" }, none)) ∧
    (∀ tr r, ReplaceProcessorStrategy.Process (constCompile "a") okFS
        { Content := "abc", Lines := ["abc"], LineCount := 1 }
        { Pattern := "a", ReplaceWith := "b", DryRun := false } = (tr, (some r, none)) →
      r.ModifiedContent = "bbc" ∧ r.MatchesFound = 1) := by
  exact replace_dryRun_equiv (constCompile "a") okFS
    { Content := "abc", Lines := ["abc"], LineCount := 1 }
    { Pattern := "a", ReplaceWith := "b" } (litRegexp "a") rfl rfl

/-- A successful backup consists of reading the original bytes and writing
exactly them to the backup path (preceded by the directory creation when a
backup directory is named). -/
theorem createBackup_ok_spec (fs : FS) (fileName backupDir : String) :
    ∀ tr bp, ReplaceProcessorStrategy.createBackup fs fileName backupDir =
        (tr, (bp, none)) →
      ∃ orig, fs.readFile fileName = some orig ∧
        (tr = [FSWrite.write bp orig] ∨
         tr = [FSWrite.mkdir backupDir, FSWrite.write bp orig]) := by
  intro tr bp h
  unfold ReplaceProcessorStrategy.createBackup at h
  split at h
  · simp at h
  · rename_i orig horig
    refine ⟨orig, horig, ?_⟩
    dsimp only at h
    split at h
    · split at h
      · split at h
        · simp only [Prod.mk.injEq] at h
          right
          rw [← h.1, ← h.2.1]
        · simp at h
      · simp at h
    · split at h
      · simp only [Prod.mk.injEq] at h
        left
        rw [← h.1, ← h.2.1]
      · simp at h

/-- A failed backup performs no file write: its trace is empty or the sole
directory creation. -/
theorem createBackup_err_spec (fs : FS) (fileName backupDir : String) :
    ∀ tr bp e, ReplaceProcessorStrategy.createBackup fs fileName backupDir =
        (tr, (bp, some e)) →
      tr = [] ∨ tr = [FSWrite.mkdir backupDir] := by
  intro tr bp e h
  unfold ReplaceProcessorStrategy.createBackup at h
  split at h
  · simp only [Prod.mk.injEq] at h
    left
    exact h.1.symm
  · dsimp only at h
    split at h
    · split at h
      · split at h
        · simp at h
        · simp only [Prod.mk.injEq] at h
          right
          exact h.1.symm
      · simp only [Prod.mk.injEq] at h
        left
        exact h.1.symm
    · split at h
      · simp at h
      · simp only [Prod.mk.injEq] at h
        left
        exact h.1.symm

/-- Claim C8: with `createBackup` set and `dryRun` unset, the backup write
always precedes the output write. If the backup step fails, the operation
stops with its error and the trace holds no file write at all (so the
output write was never attempted and no file content changed); if the
backup succeeds and the output write fails, the operation reports the write
error while the trace holds exactly the backup write of the original bytes
(the backup remains, nothing else was modified); if both succeed, the
output write is appended strictly after the backup's trace. -/
theorem replace_backup_before_write (compile : String → Except String Regexp)
    (fs : FS) (fc : FileContent) (options : ProcessOptions) (re : Regexp)
    (hcb : options.CreateBackup = true) (hdr : options.DryRun = false)
    (hval : ReplaceProcessorStrategy.ValidateOptions options = none)
    (hcp : compileSearchStyle compile "failed to compile replace pattern" options = .ok re) :
    (∀ tr bp e, ReplaceProcessorStrategy.createBackup fs options.FileName options.BackupDir =
        (tr, (bp, some e)) →
      ReplaceProcessorStrategy.Process compile fs fc options =
        (tr, (none, some ("failed to create backup: " ++ e))) ∧
      (∀ p d, FSWrite.write p d ∉ tr)) ∧
    (∀ tr bp, ReplaceProcessorStrategy.createBackup fs options.FileName options.BackupDir =
        (tr, (bp, none)) →
      (fs.writeOk (outputTarget options) = false →
        ReplaceProcessorStrategy.Process compile fs fc options =
          (tr, (none, some "failed to write modified content")) ∧
        ∃ orig, fs.readFile options.FileName = some orig ∧
          FSWrite.write bp orig ∈ tr ∧
          ∀ p d, FSWrite.write p d ∈ tr → p = bp ∧ d = orig) ∧
      (fs.writeOk (outputTarget options) = true →
        ReplaceProcessorStrategy.Process compile fs fc options =
          (tr ++ [FSWrite.write (outputTarget options)
              (re.replaceAllString fc.Content options.ReplaceWith)],
           (some { FileName := options.FileName, Operation := "replace",
                   MatchesFound := re.findAllCount fc.Content,
                   LinesProcessed := fc.LineCount, Success := true, BackupPath := bp,
                   ModifiedContent := re.replaceAllString fc.Content options.ReplaceWith },
            none)))) := by
  constructor
  · intro tr bp e hb
    constructor
    · unfold ReplaceProcessorStrategy.Process
      simp [hval, hcp, hcb, hdr, hb]
    · intro p d hmem
      rcases createBackup_err_spec fs options.FileName options.BackupDir tr bp e hb
        with htr | htr
      · rw [htr] at hmem
        cases hmem
      · rw [htr] at hmem
        simp at hmem
  · intro tr bp hb
    constructor
    · intro hw
      constructor
      · unfold ReplaceProcessorStrategy.Process
        simp [hval, hcp, hcb, hdr, hb, hw]
      · obtain ⟨orig, horig, htr⟩ :=
          createBackup_ok_spec fs options.FileName options.BackupDir tr bp hb
        refine ⟨orig, horig, ?_, ?_⟩
        · rcases htr with htr | htr <;> rw [htr] <;> simp
        · intro p d hmem
          rcases htr with htr | htr <;> rw [htr] at hmem <;> simp at hmem <;>
            exact ⟨hmem.1, hmem.2⟩
    · intro hw
      unfold ReplaceProcessorStrategy.Process
      simp [hval, hcp, hcb, hdr, hb, hw]

/-- A filesystem oracle on which the source file `f.txt` cannot be written
but everything else succeeds; exercises the backup-before-write ordering. -/
def backupFS : FS where
  readFile := fun _ => some "abc"
  mkdirOk := fun _ => true
  writeOk := fun p => p != "f.txt"
  timestamp := "20250101_000000"

/-- Concrete instantiation of `replace_backup_before_write`: the backup of
the original bytes succeeds, the output write to the source fails, the
operation errors, and the only performed write is the backup. -/
theorem replace_backup_before_write_witness :
    ReplaceProcessorStrategy.Process (constCompile "a") backupFS
        { Content := "abc", Lines := ["abc"], LineCount := 1 }
        { Pattern := "a", ReplaceWith := "b", CreateBackup := true, FileName := "f.txt" } =
      ([FSWrite.write "f.txt.backup_20250101_000000" "abc"],
       (none, some "failed to write modified content")) ∧
    ∃ orig, backupFS.readFile "f.txt" = some orig ∧
      FSWrite.write "f.txt.backup_20250101_000000" orig ∈
        [FSWrite.write "f.txt.backup_20250101_000000" "abc"] ∧
      ∀ p d, FSWrite.write p d ∈ [FSWrite.write "f.txt.backup_20250101_000000" "abc"] →
        p = "f.txt.backup_20250101_000000" ∧ d = orig :=
  ((replace_backup_before_write (constCompile "a") backupFS
      { Content := "abc", Lines := ["abc"], LineCount := 1 }
      { Pattern := "a", ReplaceWith := "b", CreateBackup := true, FileName := "f.txt" }
      (litRegexp "a") rfl rfl rfl rfl).2
    [FSWrite.write "f.txt.backup_20250101_000000" "abc"]
    "f.txt.backup_20250101_000000" rfl).1 rfl

/-- The discipline of a Go `(*ProcessingResult, error)` pair: either a
result with `Success = true` and a nil error, or no result and a non-nil
error — never both, never neither. -/
def WellFormedReturn (ret : GoReturn) : Prop :=
  (∃ r, ret = (some r, none) ∧ r.Success = true) ∨ (∃ e, ret = (none, some e))

/-- A return guarded by a write outcome is well formed: the successful
branch returns the result, the failing branch the error. -/
theorem wellFormed_ite_write (w : Bool) (tr ww : List FSWrite) (R : ProcessingResult)
    (hs : R.Success = true) (msg : String) :
    WellFormedReturn
      ((if w = true then (ww, (some R, none)) else (tr, (none, some msg))).2) := by
  cases w
  · exact Or.inr ⟨msg, by simp⟩
  · exact Or.inl ⟨R, by simp, hs⟩

/-- Claim C9: every strategy returns either a result with `Success = true`
and nil error, or no result and an error — never a partial result alongside
an error; and when a commanded output write fails (dry-run off, and for
Filter an output file named), the operation returns no result at all, so
the computed `matchesFound`/`modifiedContent` are not handed to the caller. -/
theorem strategies_result_xor_error (compile : String → Except String Regexp)
    (fs : FS) (fc : FileContent) (options : ProcessOptions) :
    WellFormedReturn (SearchProcessorStrategy.Process compile fc options) ∧
    WellFormedReturn (ReplaceProcessorStrategy.Process compile fs fc options).2 ∧
    WellFormedReturn (FilterProcessorStrategy.Process compile fs fc options).2 ∧
    WellFormedReturn (TransformProcessorStrategy.Process fs fc options).2 ∧
    (options.DryRun = false → fs.writeOk (outputTarget options) = false →
      ∃ tr e, ReplaceProcessorStrategy.Process compile fs fc options =
        (tr, (none, some e))) ∧
    (options.OutputFile ≠ "" → options.DryRun = false →
      fs.writeOk options.OutputFile = false →
      ∃ e, FilterProcessorStrategy.Process compile fs fc options =
        ([], (none, some e))) ∧
    (options.DryRun = false → fs.writeOk (outputTarget options) = false →
      ∃ e, TransformProcessorStrategy.Process fs fc options = ([], (none, some e))) := by
  refine ⟨?_, ?_, ?_, ?_, ?_, ?_, ?_⟩
  · unfold SearchProcessorStrategy.Process
    repeat' split
    all_goals
      first
        | exact Or.inl ⟨_, rfl, rfl⟩
        | exact Or.inr ⟨_, rfl⟩
  · unfold ReplaceProcessorStrategy.Process
    rcases hstep : ReplaceProcessorStrategy.createBackup fs options.FileName options.BackupDir
      with ⟨tr2, bp, berr⟩
    cases berr with
    | some e =>
      simp only [hstep]
      repeat' split
      all_goals
        first
          | exact Or.inl ⟨_, rfl, rfl⟩
          | exact Or.inr ⟨_, rfl⟩
    | none =>
      simp only [hstep]
      repeat' split
      all_goals
        first
          | exact Or.inl ⟨_, rfl, rfl⟩
          | exact Or.inr ⟨_, rfl⟩
  · unfold FilterProcessorStrategy.Process
    repeat' split
    all_goals
      first
        | exact Or.inl ⟨_, rfl, rfl⟩
        | exact Or.inr ⟨_, rfl⟩
  · unfold TransformProcessorStrategy.Process
    split
    · exact Or.inr ⟨_, rfl⟩
    · split
      · exact Or.inr ⟨_, rfl⟩
      · rename_i tc htc
        split
        · exact wellFormed_ite_write (fs.writeOk (outputTarget options)) []
            [FSWrite.write (outputTarget options) tc]
            { FileName := options.FileName, Operation := "transform", MatchesFound := 1,
              LinesProcessed := fc.LineCount, Success := true, ModifiedContent := tc }
            rfl "failed to write transformed content"
        · exact Or.inl ⟨_, rfl, rfl⟩
  · intro hdr hw
    unfold ReplaceProcessorStrategy.Process
    rcases hstep : ReplaceProcessorStrategy.createBackup fs options.FileName options.BackupDir
      with ⟨tr2, bp, berr⟩
    cases berr with
    | some e =>
      simp only [hstep]
      repeat' split
      all_goals first | exact ⟨_, _, rfl⟩ | simp_all
    | none =>
      simp only [hstep]
      repeat' split
      all_goals first | exact ⟨_, _, rfl⟩ | simp_all
  · intro hof hdr hw
    unfold FilterProcessorStrategy.Process
    repeat' split
    all_goals first | exact ⟨_, rfl⟩ | simp_all
  · intro hdr hw
    unfold TransformProcessorStrategy.Process
    repeat' split
    all_goals first | exact ⟨_, rfl⟩ | simp_all

/-- A filesystem oracle on which every write fails. -/
def failFS : FS where
  readFile := fun _ => some "abc"
  mkdirOk := fun _ => true
  writeOk := fun _ => false
  timestamp := "20250101_000000"

/-- Concrete instantiation of `strategies_result_xor_error`: when the live
Replace output write fails, the operation returns no result together with a
non-nil error. -/
theorem strategies_result_xor_error_witness :
    ∃ tr e, ReplaceProcessorStrategy.Process (constCompile "a") failFS
        { Content := "abc", Lines := ["abc"], LineCount := 1 }
        { Pattern := "a", ReplaceWith := "b", FileName := "f.txt" } =
      (tr, (none, some e)) :=
  (strategies_result_xor_error (constCompile "a") failFS
    { Content := "abc", Lines := ["abc"], LineCount := 1 }
    { Pattern := "a", ReplaceWith := "b", FileName := "f.txt" }).2.2.2.2.1 rfl rfl

end Optix
